import Mathlib

/-!
Verification of the libE57Format core against its specification.

The development shallowly embeds the public behaviour of
`CompressedVectorReader` (src/src/CompressedVectorReader.cpp) and
`IntegerNode` (src/unnamed/part_000, i.e. IntegerNode.cpp).  The public
classes delegate to pimpl classes (`CompressedVectorReaderImpl`,
`IntegerNodeImpl`) whose sources are not part of the covered tree; where a
definition models such missing code its doc comment starts with
`Modelled from the spec:` and it follows the specification's words
(spec.md sections 4.4, 4.5, 7).  Everything else is translated from the
C++ sources directly.

Machine integers (`int64_t`) are embedded as `Int` together with the
explicit range [-2^63, 2^63); unsigned counters as `Nat`.  A C++ method
that can throw is embedded as a function returning `Except ErrorCode`
(or `Option ErrorCode` for checkers); a method that mutates the object
additionally returns the successor state, so state left unchanged is an
explicit, provable fact.
-/

namespace E57

/-- Error kinds surfaced by the library (spec.md section 6); only the kinds
used by the embedded operations are listed. -/
inductive ErrorCode where
  | imageFileNotOpen
  | fileReadOnly
  | readerNotOpen
  | badAPIArgument
  | conversionRequired
  | valueNotRepresentable
  | scaledValueNotRepresentable
  | real64TooLarge
  | expectingNumeric
  | expectingUString
  | valueOutOfBounds
  | invarianceViolation
  | badNodeDowncast
  deriving DecidableEq, Repr

instance {ε α : Type} [DecidableEq ε] [DecidableEq α] : DecidableEq (Except ε α) := fun x y =>
  match x, y with
  | .error a, .error b =>
    if h : a = b then isTrue (by rw [h]) else isFalse fun hh => h (Except.error.inj hh)
  | .error _, .ok _ => isFalse fun hh => Except.noConfusion hh
  | .ok _, .error _ => isFalse fun hh => Except.noConfusion hh
  | .ok a, .ok b =>
    if h : a = b then isTrue (by rw [h]) else isFalse fun hh => h (Except.ok.inj hh)

/-- The externally visible state of an `ImageFile` container consulted by the
embedded operations: open flag, writability, and the reader/writer counts
(spec.md sections 2 and 5: "the outer file-open/close bookkeeping apart from
the reader/writer count it must consult"). -/
structure ImageFile where
  isOpen : Bool
  isWritable : Bool
  readerCount : Nat
  writerCount : Nat
  deriving DecidableEq, Repr

/-- int64_t lower bound, -2^63. -/
def int64MinValue : Int := -(2 ^ 63)

/-- int64_t upper bound, 2^63 - 1. -/
def int64MaxValue : Int := 2 ^ 63 - 1

/-- An `Int` lies in the representable range of int64_t, [-2^63, 2^63). -/
def isInt64 (v : Int) : Prop := int64MinValue ≤ v ∧ v ≤ int64MaxValue

instance (v : Int) : Decidable (isInt64 v) := by unfold isInt64; infer_instance

/-- Memory element kinds of a SourceDestBuffer delivering integers
(spec.md section 4.2: element_kind one of i8,i16,i32,i64,...). -/
inductive MemKind where
  | i8
  | i16
  | i32
  | i64
  deriving DecidableEq, Repr

/-- Smallest value representable in the buffer's element type. -/
def MemKind.minVal : MemKind → Int
  | .i8 => -(2 ^ 7)
  | .i16 => -(2 ^ 15)
  | .i32 => -(2 ^ 31)
  | .i64 => -(2 ^ 63)

/-- Largest value representable in the buffer's element type. -/
def MemKind.maxVal : MemKind → Int
  | .i8 => 2 ^ 7 - 1
  | .i16 => 2 ^ 15 - 1
  | .i32 => 2 ^ 31 - 1
  | .i64 => 2 ^ 63 - 1

/-- One record: the values of the prototype's terminal fields, in prototype
order (spec.md section 3, CompressedVector; section 4.2). -/
abbrev Record := List Int

/-- Modelled from the spec: the integer leg of the type coercion performed
when delivering a stored value into a SourceDestBuffer
(`CompressedVectorReaderImpl` is not under src/).  spec.md section 4.4:
"Integer → Integer: range-check; fail with `ValueNotRepresentable` if the
stored value exceeds the target integer type's range." -/
def convertValue (k : MemKind) (v : Int) : Except ErrorCode Int :=
  if v < k.minVal ∨ k.maxVal < v then .error .valueNotRepresentable else .ok v

/-- Modelled from the spec: deliver one record by converting each field's
value into the element kind of the buffer bound to that field
(spec.md section 4.2: one SourceDestBuffer per terminal field path). -/
def convertRecord (ks : List MemKind) (r : Record) : Except ErrorCode Record :=
  (ks.zip r).mapM fun p => convertValue p.1 p.2

/-- Modelled from the spec: deliver a run of records in order, converting
each into the bound buffers' element kinds; the first conversion failure
aborts the transfer with that error (spec.md sections 4.4, 4.5, 7). -/
def convertRecords (ks : List MemKind) : List Record → Except ErrorCode (List Record)
  | [] => .ok []
  | r :: rs =>
    match convertRecord ks r with
    | .error e => .error e
    | .ok r' =>
      match convertRecords ks rs with
      | .error e => .error e
      | .ok rs' => .ok (r' :: rs')

/-- Modelled from the spec: the externally visible state of an open
`CompressedVectorReaderImpl` (not under src/): open/closed flag, sickness
(spec.md section 7: "the reader/writer becomes *sick*"), the container, the
attachment flag of the associated CompressedVectorNode, the next record
index, the node's record stream, and the bound SourceDestBuffers (their
shared capacity, element kinds, and the destination memory, position `i` of
`buffer` holding record slot `i` across all field buffers). -/
structure ReaderState where
  isOpen : Bool
  sick : Option ErrorCode
  imf : ImageFile
  attached : Bool
  pos : Nat
  records : List Record
  kinds : List MemKind
  capacity : Nat
  buffer : List Record
  deriving DecidableEq, Repr

/-- Modelled from the spec: `CompressedVectorReaderImpl::read` (not under
src/).  spec.md section 4.5: "read(): returns up to `capacity` records into
bound buffers; returns fewer only at end-of-stream; returns 0 forever after
end.  Partial returns fill buffer positions [0, n)."; section 7: a
conversion/bounds error makes the reader sick; design note: "every public
entry point checks it first".  The preconditions of the public wrapper
(src/src/CompressedVectorReader.cpp lines 160-166) put the ImageFileNotOpen
and ReaderNotOpen checks first.  The pair returned is (result, state after
the call). -/
def ReaderState.read (r : ReaderState) : Except ErrorCode Nat × ReaderState :=
  if ¬ r.imf.isOpen then (.error .imageFileNotOpen, r)
  else if ¬ r.isOpen then (.error .readerNotOpen, r)
  else
    match r.sick with
    | some e => (.error e, r)
    | none =>
      let n := min r.capacity (r.records.length - r.pos)
      let chunk := (r.records.drop r.pos).take n
      match convertRecords r.kinds chunk with
      | .error e => (.error e, { r with sick := some e })
      | .ok delivered =>
        (.ok n, { r with pos := r.pos + n, buffer := delivered ++ r.buffer.drop n })

/-- Modelled from the spec: `CompressedVectorReaderImpl::seek` (not under
src/).  spec.md section 4.5: "seek(recordNumber): 0 ≤ recordNumber ≤
record_count"; the public wrapper's contract
(src/src/CompressedVectorReader.cpp lines 257-286) documents the
BadAPIArgument, ImageFileNotOpen and ReaderNotOpen failures and that the
next read starts at the given record number. -/
def ReaderState.seek (r : ReaderState) (recordNumber : Int) :
    Except ErrorCode Unit × ReaderState :=
  if ¬ r.imf.isOpen then (.error .imageFileNotOpen, r)
  else if ¬ r.isOpen then (.error .readerNotOpen, r)
  else
    match r.sick with
    | some e => (.error e, r)
    | none =>
      if recordNumber < 0 ∨ (r.records.length : Int) < recordNumber then
        (.error .badAPIArgument, r)
      else (.ok (), { r with pos := recordNumber.toNat })

/-- Modelled from the spec: `CompressedVectorReaderImpl::close` (not under
src/).  spec.md section 4.5: "close(): idempotent; transitions to closed;
decrements container's reader count"; the public wrapper's contract
(src/src/CompressedVectorReader.cpp lines 288-304): not an error to call
close on an already closed reader; it succeeds even on a sick reader
(spec.md section 7: "only `close` succeeds afterward"). -/
def ReaderState.close (r : ReaderState) : Except ErrorCode Unit × ReaderState :=
  if r.isOpen then
    (.ok (),
      { r with
        isOpen := false
        imf := { r.imf with readerCount := r.imf.readerCount - 1 } })
  else (.ok (), r)

/-- `CompressedVectorReader::checkInvariant`
(src/src/CompressedVectorReader.cpp lines 49-85), translated clause for
clause: early return when the reader is not open; early return when the
destination ImageFile is not open; then InvarianceViolation when the
associated CompressedVectorNode is not attached, when the ImageFile has
fewer than 1 reader, or when it has any writer.  The C++ function throws;
here the raised error is the returned `Option` and, the function being
pure on `ReaderState`, no state is modified. -/
def ReaderState.checkInvariant (r : ReaderState) : Option ErrorCode :=
  if ¬ r.isOpen then none
  else if ¬ r.imf.isOpen then none
  else if ¬ r.attached then some .invarianceViolation
  else if r.imf.readerCount < 1 then some .invarianceViolation
  else if r.imf.writerCount ≠ 0 then some .invarianceViolation
  else none

/-- The node type tags returned by `Node::type()` (spec.md section 3 lists
the eight variants; section 9: "The generic Node handle is the sum type;
downcast is a tag check"). -/
inductive NodeType where
  | typeStructure
  | typeVector
  | typeCompressedVector
  | typeInteger
  | typeScaledInteger
  | typeFloat
  | typeString
  | typeBlob
  deriving DecidableEq, Repr

/-- The state of an `IntegerNodeImpl` visible through the IntegerNode API
(src/unnamed/part_000, IntegerNode.cpp: accessors value, minimum, maximum,
destImageFile, isAttached): the stored triple, the declared destination
container, and the attachment flag.  spec.md section 3: Integer is
{value, min, max}; every int64_t component is an `Int` in [-2^63, 2^63). -/
structure IntegerNodeImpl where
  value : Int
  minimum : Int
  maximum : Int
  destImageFile : ImageFile
  isAttached : Bool
  deriving DecidableEq, Repr

/-- Modelled from the spec: the underlying node body that a generic Node
handle points at (`NodeImpl` is not under src/).  spec.md section 9:
"Inheritance of node types: modeled as a tagged variant"; only the Integer
variant carries the state the covered sources read, the remaining variants
are distinguished by their tag alone. -/
inductive NodeImpl where
  | integer (ni : IntegerNodeImpl)
  | scaledInteger
  | float
  | vectorNode
  | compressedVector
  | stringNode
  | blob
  | structureNode
  deriving DecidableEq, Repr

/-- A generic Node handle: it references an underlying node body
(in the C++ source a shared_ptr<NodeImpl>). -/
structure Node where
  impl : NodeImpl
  deriving DecidableEq, Repr

/-- Modelled from the spec: `Node::type()` (not under src/) reads the tag of
the variant the handle references (spec.md section 9: "downcast is a tag
check" against this tag). -/
def Node.type (n : Node) : NodeType :=
  match n.impl with
  | .integer _ => .typeInteger
  | .scaledInteger => .typeScaledInteger
  | .float => .typeFloat
  | .vectorNode => .typeVector
  | .compressedVector => .typeCompressedVector
  | .stringNode => .typeString
  | .blob => .typeBlob
  | .structureNode => .typeStructure

/-- `IntegerNode::operator Node()` (src/unnamed/part_000 lines 290-294):
upcast the IntegerNode handle to a generic Node handle referencing the same
underlying object.  Total: the upcast never fails. -/
def IntegerNode.toNode (ni : IntegerNodeImpl) : Node :=
  Node.mk (NodeImpl.integer ni)

/-- `IntegerNode::IntegerNode(const Node &n)` (src/unnamed/part_000 lines
310-319): downcast a generic Node handle; if `n.type() != TypeInteger` fail
with ErrorBadNodeDowncast, otherwise the handle is set to the (tag-checked)
cast of the same underlying object.  In the embedding the tag and the
variant constructor coincide, so the type() test is the match on the
constructor. -/
def IntegerNode.fromNode (n : Node) : Except ErrorCode IntegerNodeImpl :=
  match n.impl with
  | .integer ni => .ok ni
  | _ => .error .badNodeDowncast

/-- Modelled from the spec: `IntegerNodeImpl::validateValue` (not under
src/), called by the constructor (src/unnamed/part_000 line 149).
spec.md section 3: "construction validates value-in-bounds eagerly" and
section 8: "Bounds: for every Integer/ScaledInteger node, accepting a value
iff min ≤ v ≤ max"; the constructor contract (src/unnamed/part_000 lines
127-141) names the failure ErrorValueOutOfBounds. -/
def IntegerNodeImpl.validateValue (n : IntegerNodeImpl) : Option ErrorCode :=
  if n.value < n.minimum ∨ n.maximum < n.value then some .valueOutOfBounds
  else none

/-- `IntegerNode::IntegerNode(const ImageFile&, int64_t, int64_t, int64_t)`
(src/unnamed/part_000 lines 145-150): build the impl against the declared
destination ImageFile, then validate eagerly.  The open/writable
preconditions and their failures (ErrorImageFileNotOpen, ErrorFileReadOnly)
are the constructor's documented contract (lines 132-139; spec.md section
3: "Nodes are created against an open, writable container") and live in
the impl constructor, which is not under src/ and is modelled from those
words.  A fresh node is not attached (spec.md: attaching happens later via
the tree). -/
def IntegerNode.create (destImageFile : ImageFile) (value minimum maximum : Int) :
    Except ErrorCode IntegerNodeImpl :=
  if ¬ destImageFile.isOpen then .error .imageFileNotOpen
  else if ¬ destImageFile.isWritable then .error .fileReadOnly
  else
    let ni : IntegerNodeImpl :=
      { value := value, minimum := minimum, maximum := maximum
        destImageFile := destImageFile, isAttached := false }
    match ni.validateValue with
    | some e => .error e
    | none => .ok ni

/-- Modelled from the spec: `Node::checkInvariant` (not under src/) checks
the generic-node predicates of spec.md section 3 (parent links, attachment
reachability); none of them involves the value-level state carried by this
embedding, so on this state the check passes. -/
def Node.checkInvariant (_n : Node) (_doRecurse _doUpcast : Bool) : Option ErrorCode :=
  none

/-- `IntegerNode::checkInvariant` (src/unnamed/part_000 lines 57-77),
clause for clause: early return when the destination ImageFile is not open;
when `doUpcast`, first run the generic Node check on the upcast handle;
then InvarianceViolation exactly when the value lies outside
[minimum, maximum].  Pure on `IntegerNodeImpl`: no state is modified. -/
def IntegerNodeImpl.checkInvariant (n : IntegerNodeImpl) (_doRecurse doUpcast : Bool) :
    Option ErrorCode :=
  if ¬ n.destImageFile.isOpen then none
  else
    match (if doUpcast then Node.checkInvariant (IntegerNode.toNode n) false false else none) with
    | some e => some e
    | none =>
      if n.value < n.minimum ∨ n.maximum < n.value then some .invarianceViolation
      else none

/-- Little-endian bit string of a natural number, `k` bits, least
significant bit first (spec.md section 6: multi-byte integers are
little-endian; the per-field encoder packs `bits_per_value` bits per
record). -/
def natToBits : Nat → Nat → List Bool
  | 0, _ => []
  | k + 1, n => (n % 2 == 1) :: natToBits k (n / 2)

/-- Value of a little-endian bit string, least significant bit first. -/
def bitsToNat : List Bool → Nat
  | [] => 0
  | b :: bs => (if b then 1 else 0) + 2 * bitsToNat bs

/-- The two floating-point precisions of a Float field (spec.md section 3:
precision ∈ {single, double}). -/
inductive FloatPrec where
  | single
  | double
  deriving DecidableEq, Repr

/-- Bit width of the raw IEEE-754 representation for the precision. -/
def FloatPrec.bitWidth : FloatPrec → Nat
  | .single => 32
  | .double => 64

/-- Modelled from the spec: the value of one terminal prototype field as
the codec carries it (spec.md section 4.4): the integer value of an
Integer field (or the raw_value of a ScaledInteger field); the raw
IEEE-754 bit pattern (32 or 64 bits) of a Float field — the codec stores
and returns the pattern verbatim and never interprets it as a real
number, so the bit-for-bit round trip is a statement about this pattern;
or the UTF-8 byte run of a String field. -/
inductive Value where
  | int (v : Int)
  | float (pattern : Nat)
  | str (bytes : List Nat)
  deriving DecidableEq, Repr

instance : Inhabited Value := ⟨Value.int 0⟩

/-- The integer carried by a Value bound for an Integer/ScaledInteger
field (the encoder only reads it on such fields). -/
def Value.asInt : Value → Int
  | .int v => v
  | _ => 0

/-- The raw IEEE-754 bit pattern carried by a Value bound for a Float
field. -/
def Value.asFloat : Value → Nat
  | .float p => p
  | _ => 0

/-- The UTF-8 bytes carried by a Value bound for a String field. -/
def Value.asStr : Value → List Nat
  | .str s => s
  | _ => []

/-- Modelled from the spec: a terminal field of a CompressedVector
prototype, one variant per per-field encoder of spec.md section 4.4
(the codec implementation is not under src/): bit-packed Integer,
ScaledInteger (identical to Integer on raw_value), Float single/double
(raw IEEE-754 little-endian), and String (length-prefixed varint
UTF-8). -/
inductive Field where
  | integer (minimum maximum : Int)
  | scaledInteger (minimum maximum : Int)
  | float (precision : FloatPrec)
  | stringField
  deriving DecidableEq, Repr

instance : Inhabited Field := ⟨Field.integer 0 0⟩

/-- Modelled from the spec: bits_per_value = ceil(log2(max − min + 1)) of
a bit-packed Integer/ScaledInteger field (spec.md section 4.4). -/
def intFieldWidth (lo hi : Int) : Nat :=
  Nat.clog 2 (hi - lo + 1).toNat

/-- A value conforms to its field: on Integer/ScaledInteger it is an
integer within the declared [min, max] bounds; on Float it is a bit
pattern of the field's IEEE-754 width; on String it is a run of bytes. -/
def Field.wellTyped : Field → Value → Prop
  | .integer lo hi, .int v => lo ≤ v ∧ v ≤ hi
  | .scaledInteger lo hi, .int v => lo ≤ v ∧ v ≤ hi
  | .float p, .float pat => pat < 2 ^ p.bitWidth
  | .stringField, .str s => ∀ b ∈ s, b < 256
  | _, _ => False

instance : ∀ (f : Field) (v : Value), Decidable (f.wellTyped v) := by
  intro f v
  cases f <;> cases v <;> simp only [Field.wellTyped] <;> infer_instance

/-- Modelled from the spec: base-128 varint encoding of a string length,
low seven-bit group first, the byte's high bit marking continuation
(spec.md section 4.4: "String: length-prefixed (varint) UTF-8"). -/
def varintEncode (n : Nat) : List Nat :=
  if h : n < 128 then [n]
  else (128 + n % 128) :: varintEncode (n / 128)
termination_by n
decreasing_by
  exact Nat.div_lt_self (by omega) (by norm_num)

/-- The bytes of a byte run laid out as bits, eight per byte, least
significant bit first within each byte (spec.md section 6: multi-byte
data little-endian). -/
def bytesToBits (bs : List Nat) : List Bool :=
  (bs.map (natToBits 8)).flatten

/-- Decode a varint from the head of a bit stream, eight bits per byte,
returning the value and the remaining bits. -/
def varintDecodeBits (bits : List Bool) : Nat × List Bool :=
  if hb : bits = [] then (0, [])
  else
    let byte := bitsToNat (bits.take 8)
    if byte < 128 then (byte, bits.drop 8)
    else
      let p := varintDecodeBits (bits.drop 8)
      (byte - 128 + 128 * p.1, p.2)
termination_by bits.length
decreasing_by
  have hlen := List.length_pos.mpr hb
  simp only [List.length_drop]
  omega

/-- Read `count` bytes, eight bits each, from the head of a bit stream. -/
def readBytes : Nat → List Bool → List Nat
  | 0, _ => []
  | k + 1, bits => bitsToNat (bits.take 8) :: readBytes k (bits.drop 8)

/-- Modelled from the spec: the per-field encoders of spec.md section 4.4.
Integer: bit-packed, `bits_per_value = ceil(log2(max − min + 1))` bits of
(v − min); ScaledInteger: identical on the raw value; Float single/double:
the raw IEEE-754 pattern in little-endian; String: the varint
length-prefixed UTF-8 bytes (each record's length-prefixed run following
the previous one in the field's bytestream, the string data forming the
byte-aligned tail of each run). -/
def encodeValue : Field → Value → List Bool
  | .integer lo hi, v => natToBits (intFieldWidth lo hi) (v.asInt - lo).toNat
  | .scaledInteger lo hi, v => natToBits (intFieldWidth lo hi) (v.asInt - lo).toNat
  | .float p, v => natToBits p.bitWidth v.asFloat
  | .stringField, v => bytesToBits (varintEncode v.asStr.length ++ v.asStr)

/-- Modelled from the spec: the per-field decoders, dual to `encodeValue`:
consume one record's worth of bits from the field's bytestream and return
the value and the rest of the stream (spec.md section 4.4; the decoder's
cursor into the current bytestream is the returned remainder). -/
def decodeValue : Field → List Bool → Value × List Bool
  | .integer lo hi, bits =>
    (.int (lo + (bitsToNat (bits.take (intFieldWidth lo hi)) : Int)),
      bits.drop (intFieldWidth lo hi))
  | .scaledInteger lo hi, bits =>
    (.int (lo + (bitsToNat (bits.take (intFieldWidth lo hi)) : Int)),
      bits.drop (intFieldWidth lo hi))
  | .float p, bits =>
    (.float (bitsToNat (bits.take p.bitWidth)), bits.drop p.bitWidth)
  | .stringField, bits =>
    let p := varintDecodeBits bits
    (.str (readBytes p.1 p.2), p.2.drop (8 * p.1))

/-- Modelled from the spec: the bytestream of one field over a run of
records — the concatenation of the records' per-field encodings
(spec.md section 4.4).  Packet framing only slices these streams into
transport units and the decoder state survives packet boundaries, so the
stream a decoder consumes per field is this concatenation. -/
def encodeField (f : Field) (vs : List Value) : List Bool :=
  (vs.map (encodeValue f)).flatten

/-- Modelled from the spec: the per-field decoder — decode one value per
record from the field's bytestream (spec.md section 4.4); the record
count comes from the CompressedVectorNode's record_count header. -/
def decodeField (f : Field) : Nat → List Bool → List Value
  | 0, _ => []
  | c + 1, bits =>
    (decodeValue f bits).1 :: decodeField f c (decodeValue f bits).2

/-- Column `i` of a record run: the values of field `i` across the records,
the order the columnar codec stores them in (spec.md section 4.4:
"Concatenated bytestreams, one per field"). -/
def columnOf (records : List (List Value)) (i : Nat) : List Value :=
  records.map fun r => r.getD i default

/-- Modelled from the spec: a CompressedVectorWriter's encode of a record
run — one bytestream per terminal field of the prototype, in prototype
order (spec.md sections 4.4 and 4.6). -/
def writeRecords (fs : List Field) (records : List (List Value)) : List (List Bool) :=
  (List.range fs.length).map fun i => encodeField (fs.getD i default) (columnOf records i)

/-- Modelled from the spec: a CompressedVectorReader's decode of the
per-field bytestreams back into `count` records (spec.md sections 4.4 and
4.5), record `j` collecting the `j`-th decoded value of every field in
prototype order. -/
def readRecords (fs : List Field) (count : Nat) (streams : List (List Bool)) :
    List (List Value) :=
  (List.range count).map fun j =>
    (List.range fs.length).map fun i =>
      (decodeField (fs.getD i default) count (streams.getD i [])).getD j default

/-! ### Codec lemmas -/

theorem natToBits_length (k n : Nat) : (natToBits k n).length = k := by
  induction k generalizing n with
  | zero => simp [natToBits]
  | succ k ih => simp [natToBits, ih]

theorem bitsToNat_natToBits {k n : Nat} (h : n < 2 ^ k) :
    bitsToNat (natToBits k n) = n := by
  induction k generalizing n with
  | zero =>
    simp only [pow_zero, Nat.lt_one_iff] at h
    simp [natToBits, bitsToNat, h]
  | succ k ih =>
    have hdiv : n / 2 < 2 ^ k := by
      rw [pow_succ] at h
      omega
    simp only [natToBits, bitsToNat, ih hdiv]
    rcases Nat.mod_two_eq_zero_or_one n with h2 | h2 <;> simp [h2] <;> omega

theorem bytesToBits_cons (b : Nat) (bs : List Nat) :
    bytesToBits (b :: bs) = natToBits 8 b ++ bytesToBits bs := by
  simp [bytesToBits]

theorem bytesToBits_append (a b : List Nat) :
    bytesToBits (a ++ b) = bytesToBits a ++ bytesToBits b := by
  simp [bytesToBits]

/-- The varint round trip: decoding the bit image of an encoded length
recovers the length and leaves exactly the trailing bits. -/
theorem varint_roundtrip : ∀ (n : Nat) (tail : List Bool),
    varintDecodeBits (bytesToBits (varintEncode n) ++ tail) = (n, tail) := by
  intro n
  induction n using Nat.strong_induction_on with
  | _ n ih =>
    intro tail
    rw [varintEncode]
    by_cases h : n < 128
    · rw [dif_pos h]
      have hstream : bytesToBits [n] ++ tail = natToBits 8 n ++ tail := by
        simp [bytesToBits]
      rw [hstream, varintDecodeBits]
      have hlen : (natToBits 8 n).length = 8 := natToBits_length _ _
      have hne : natToBits 8 n ++ tail ≠ [] := by
        apply List.ne_nil_of_length_pos
        simp [natToBits_length]
      rw [dif_neg hne]
      simp only [List.take_left' hlen, List.drop_left' hlen,
        bitsToNat_natToBits (show n < 2 ^ 8 by omega), if_pos h]
    · rw [dif_neg h, bytesToBits_cons, List.append_assoc, varintDecodeBits]
      have hlen : (natToBits 8 (128 + n % 128)).length = 8 := natToBits_length _ _
      have hne : natToBits 8 (128 + n % 128) ++
          (bytesToBits (varintEncode (n / 128)) ++ tail) ≠ [] := by
        apply List.ne_nil_of_length_pos
        simp [natToBits_length]
      rw [dif_neg hne]
      have hblt : 128 + n % 128 < 2 ^ 8 := by omega
      simp only [List.take_left' hlen, List.drop_left' hlen, bitsToNat_natToBits hblt]
      rw [if_neg (by omega)]
      rw [ih (n / 128) (Nat.div_lt_self (by omega) (by norm_num)) tail]
      simp only [Prod.mk.injEq]
      exact ⟨by omega, trivial⟩

/-- Reading back the bit image of a byte run recovers the bytes and skips
exactly its 8·length bits. -/
theorem readBytes_bytesToBits : ∀ (s : List Nat) (tail : List Bool),
    (∀ b ∈ s, b < 256) →
    readBytes s.length (bytesToBits s ++ tail) = s ∧
    (bytesToBits s ++ tail).drop (8 * s.length) = tail := by
  intro s
  induction s with
  | nil =>
    intro tail _
    simp [readBytes, bytesToBits]
  | cons b bs ih =>
    intro tail h
    have hb : b < 256 := h b (List.mem_cons_self b bs)
    have hlen : (natToBits 8 b).length = 8 := natToBits_length _ _
    obtain ⟨ih1, ih2⟩ := ih tail fun w hw => h w (List.mem_cons_of_mem b hw)
    rw [bytesToBits_cons, List.append_assoc]
    constructor
    · simp only [List.length_cons, readBytes, List.take_left' hlen, List.drop_left' hlen,
        bitsToNat_natToBits (show b < 2 ^ 8 by omega), ih1]
    · have h8 : 8 * (bs.length + 1) = 8 + 8 * bs.length := by ring
      rw [List.length_cons, h8, ← List.drop_drop, List.drop_left' hlen, ih2]

/-- One value's round trip through its field's encoder: decoding the
encoding recovers the value and leaves exactly the trailing bits. -/
theorem decodeValue_encodeValue (f : Field) (v : Value) (tail : List Bool)
    (h : f.wellTyped v) :
    decodeValue f (encodeValue f v ++ tail) = (v, tail) := by
  cases f with
  | integer lo hi =>
    cases v with
    | int x =>
      simp only [Field.wellTyped] at h
      have hlen : (natToBits (intFieldWidth lo hi) (x - lo).toNat).length =
          intFieldWidth lo hi := natToBits_length _ _
      have hkey : (hi - lo + 1).toNat ≤ 2 ^ intFieldWidth lo hi :=
        Nat.le_pow_clog one_lt_two _
      have hlt : (x - lo).toNat < 2 ^ intFieldWidth lo hi := by
        have : (x - lo).toNat < (hi - lo + 1).toNat := by
          rw [Int.toNat_lt_toNat (by omega)]
          omega
        omega
      simp only [encodeValue, decodeValue, Value.asInt, List.take_left' hlen,
        List.drop_left' hlen, bitsToNat_natToBits hlt, Prod.mk.injEq, Value.int.injEq]
      exact ⟨by omega, trivial⟩
    | float p => simp [Field.wellTyped] at h
    | str s => simp [Field.wellTyped] at h
  | scaledInteger lo hi =>
    cases v with
    | int x =>
      simp only [Field.wellTyped] at h
      have hlen : (natToBits (intFieldWidth lo hi) (x - lo).toNat).length =
          intFieldWidth lo hi := natToBits_length _ _
      have hkey : (hi - lo + 1).toNat ≤ 2 ^ intFieldWidth lo hi :=
        Nat.le_pow_clog one_lt_two _
      have hlt : (x - lo).toNat < 2 ^ intFieldWidth lo hi := by
        have : (x - lo).toNat < (hi - lo + 1).toNat := by
          rw [Int.toNat_lt_toNat (by omega)]
          omega
        omega
      simp only [encodeValue, decodeValue, Value.asInt, List.take_left' hlen,
        List.drop_left' hlen, bitsToNat_natToBits hlt, Prod.mk.injEq, Value.int.injEq]
      exact ⟨by omega, trivial⟩
    | float p => simp [Field.wellTyped] at h
    | str s => simp [Field.wellTyped] at h
  | float p =>
    cases v with
    | int x => simp [Field.wellTyped] at h
    | float pat =>
      simp only [Field.wellTyped] at h
      have hlen : (natToBits p.bitWidth pat).length = p.bitWidth := natToBits_length _ _
      simp only [encodeValue, decodeValue, Value.asFloat, List.take_left' hlen,
        List.drop_left' hlen, bitsToNat_natToBits h]
    | str s => simp [Field.wellTyped] at h
  | stringField =>
    cases v with
    | int x => simp [Field.wellTyped] at h
    | float pat => simp [Field.wellTyped] at h
    | str s =>
      simp only [Field.wellTyped] at h
      obtain ⟨hr1, hr2⟩ := readBytes_bytesToBits s tail h
      simp only [encodeValue, decodeValue, Value.asStr, bytesToBits_append,
        List.append_assoc, varint_roundtrip, hr1, hr2]

/-- One field's column round trip: decoding the field's bytestream
recovers the column of values it was built from. -/
theorem decodeField_encodeField (f : Field) (vs : List Value)
    (hwt : ∀ v ∈ vs, f.wellTyped v) :
    decodeField f vs.length (encodeField f vs) = vs := by
  induction vs with
  | nil => rfl
  | cons v vs ih =>
    have hv := hwt v (List.mem_cons_self v vs)
    have hdv := decodeValue_encodeValue f v (encodeField f vs) hv
    simp only [encodeField, List.map_cons, List.flatten_cons, List.length_cons, decodeField]
    rw [show (vs.map (encodeValue f)).flatten = encodeField f vs from rfl, hdv]
    dsimp only
    rw [List.cons_eq_cons]
    exact ⟨rfl, ih fun w hw => hwt w (List.mem_cons_of_mem v hw)⟩

theorem range_map_getD {α : Type} (d : α) (l : List α) :
    (List.range l.length).map (fun i => l.getD i d) = l := by
  apply List.ext_getElem
  · simp
  · intro i h1 h2
    simp only [List.getElem_map, List.getElem_range]
    exact List.getD_eq_getElem l d h2

/-- C2: for every prototype — any mix of Integer, ScaledInteger, Float
(single or double) and String fields — and every finite sequence of
records whose field values conform to their fields (integers within the
declared [min, max] bounds, float patterns of the declared width, string
byte runs), writing the sequence through a CompressedVectorWriter and
then reading it back through a CompressedVectorReader yields the same
sequence of records bit-for-bit (spec.md section 8, Round-trip).  A
ScaledInteger field is carried as its raw value, on which the round trip
is exact; the spec's stated exception — approximation when a
ScaledInteger is delivered as floating point — concerns the optional
scaled floating-point delivery, outside the bit-for-bit assertion.  A
Float field is carried as its raw IEEE-754 pattern, which the codec
stores and returns verbatim, so its round trip is bit-for-bit by
construction. -/
theorem write_read_roundtrip (fs : List Field) (records : List (List Value))
    (hrect : ∀ rec ∈ records, rec.length = fs.length)
    (hwt : ∀ rec ∈ records, ∀ i, i < fs.length →
      (fs.getD i default).wellTyped (rec.getD i default)) :
    readRecords fs records.length (writeRecords fs records) = records := by
  apply List.ext_getElem
  · simp [readRecords]
  · intro j h1 h2
    have hj : j < records.length := h2
    simp only [readRecords, List.getElem_map, List.getElem_range]
    have hrow :
        ∀ i ∈ List.range fs.length,
          (decodeField (fs.getD i default) records.length
              ((writeRecords fs records).getD i [])).getD j default =
            records[j].getD i default := by
      intro i hi
      have hilt : i < fs.length := List.mem_range.mp hi
      have hstream : (writeRecords fs records).getD i [] =
          encodeField (fs.getD i default) (columnOf records i) := by
        have hlen : i < (writeRecords fs records).length := by
          simpa [writeRecords] using hilt
        rw [List.getD_eq_getElem _ _ hlen]
        simp [writeRecords]
      have hcollen : (columnOf records i).length = records.length := by
        simp [columnOf]
      have hwcol : ∀ v ∈ columnOf records i, (fs.getD i default).wellTyped v := by
        intro v hv
        simp only [columnOf, List.mem_map] at hv
        obtain ⟨rec, hrec, rfl⟩ := hv
        exact hwt rec hrec i hilt
      have hdec := decodeField_encodeField (fs.getD i default) (columnOf records i) hwcol
      rw [hcollen] at hdec
      rw [hstream, hdec]
      have hjm : j < (columnOf records i).length := by rwa [hcollen]
      rw [List.getD_eq_getElem _ _ hjm]
      simp [columnOf]
    rw [List.map_congr_left hrow]
    have hlenrow : records[j].length = fs.length := hrect _ (List.getElem_mem hj)
    rw [← hlenrow]
    exact range_map_getD default records[j]

/-- A prototype exercising all four field kinds: an Integer, a
ScaledInteger, a double-precision Float and a String. -/
def sampleProto : List Field :=
  [Field.integer (-2) 5, Field.scaledInteger 0 100,
   Field.float FloatPrec.double, Field.stringField]

/-- Three concrete well-typed records over `sampleProto`; the third
record's float pattern is the IEEE-754 double encoding of 1.0 and the
string bytes spell "Hi" and "!". -/
def sampleCodecRecords : List (List Value) :=
  [[Value.int 3, Value.int 50, Value.float 1023, Value.str [72, 105]],
   [Value.int (-2), Value.int 0, Value.float 0, Value.str []],
   [Value.int 5, Value.int 100, Value.float 4607182418800017408, Value.str [33]]]

/-- Witness for the round trip: a prototype with all four field kinds and
three concrete conforming records survive write + read unchanged. -/
theorem write_read_roundtrip_witness :
    readRecords sampleProto sampleCodecRecords.length
        (writeRecords sampleProto sampleCodecRecords) =
      sampleCodecRecords :=
  write_read_roundtrip sampleProto sampleCodecRecords (by decide) (by decide)

/-! ### Reader lemmas -/

theorem convertRecords_ok_length {ks : List MemKind} :
    ∀ {l l' : List Record}, convertRecords ks l = .ok l' → l'.length = l.length := by
  intro l
  induction l with
  | nil =>
    intro l' h
    simp only [convertRecords, Except.ok.injEq] at h
    simp [← h]
  | cons a t ih =>
    intro l' h
    simp only [convertRecords] at h
    cases ha : convertRecord ks a with
    | error e => rw [ha] at h; simp at h
    | ok b =>
      rw [ha] at h
      cases ht : convertRecords ks t with
      | error e => rw [ht] at h; simp at h
      | ok bs =>
        rw [ht] at h
        simp only [Except.ok.injEq] at h
        simp [← h, ih ht]

/-- Characterization of a successful `read`: the state and result it must
have produced, read off the branches of `ReaderState.read`. -/
theorem read_ok_spec {r : ReaderState} {n : Nat} {r' : ReaderState}
    (h : r.read = (.ok n, r')) :
    r.imf.isOpen = true ∧ r.isOpen = true ∧ r.sick = none ∧
    n = min r.capacity (r.records.length - r.pos) ∧
    ∃ delivered,
      convertRecords r.kinds ((r.records.drop r.pos).take n) = .ok delivered ∧
      r' = { r with pos := r.pos + n, buffer := delivered ++ r.buffer.drop n } := by
  unfold ReaderState.read at h
  by_cases h1 : r.imf.isOpen = true
  swap
  · simp [h1] at h
  by_cases h2 : r.isOpen = true
  swap
  · simp [h1, h2] at h
  cases hs : r.sick with
  | some e => rw [hs] at h; simp [h1, h2] at h
  | none =>
    rw [hs] at h
    simp only [h1, h2, Bool.not_eq_true, Bool.true_eq_false, if_false, ite_false,
      not_true_eq_false] at h
    cases hc : convertRecords r.kinds
        ((r.records.drop r.pos).take (min r.capacity (r.records.length - r.pos))) with
    | error e => rw [hc] at h; simp at h
    | ok delivered =>
      rw [hc] at h
      simp only [Prod.mk.injEq, Except.ok.injEq] at h
      obtain ⟨hn, hr⟩ := h
      subst hn
      refine ⟨h1, h2, rfl, rfl, delivered, hc, ?_⟩
      rw [h2]
      exact hr.symm

/-- A healthy open reader over three one-field records bound to a pair of
two-slot i64 buffers, used to instantiate the reader theorems on concrete
state. -/
def sampleReader : ReaderState :=
  { isOpen := true
    sick := none
    imf := { isOpen := true, isWritable := false, readerCount := 1, writerCount := 0 }
    attached := true
    pos := 0
    records := [[10], [11], [12]]
    kinds := [MemKind.i64]
    capacity := 2
    buffer := [[7], [7]] }

/-- The state `sampleReader.read` leaves behind: two records delivered into
buffer slots 0 and 1, position advanced to 2. -/
def sampleReaderAfter : ReaderState :=
  { sampleReader with pos := 2, buffer := [[10], [11]] }

/-- C1: a successful `read()` on an open reader over an open ImageFile
returns fewer than the capacity of the bound SourceDestBuffers only when
the end of the CompressedVectorNode's record stream is reached; a partial
return of `n` records fills buffer positions [0, n) with the converted
records starting at the read position and leaves positions ≥ n untouched;
and once all records have been delivered (position at end of stream) a
read returns 0 and leaves the state unchanged, so every later read returns
0 as well. -/
theorem read_full_capacity_unless_end (r : ReaderState) (n : Nat) (r' : ReaderState)
    (hpos : r.pos ≤ r.records.length)
    (h : r.read = (.ok n, r')) :
    (n < r.capacity → r.pos + n = r.records.length) ∧
    convertRecords r.kinds ((r.records.drop r.pos).take n) = .ok (r'.buffer.take n) ∧
    r'.buffer.drop n = r.buffer.drop n ∧
    r'.pos = r.pos + n ∧
    (r.records.length ≤ r.pos → n = 0 ∧ r' = r) := by
  obtain ⟨h1, h2, hs, hn, delivered, hconv, hstate⟩ := read_ok_spec h
  have hmc : n ≤ r.capacity := by rw [hn]; exact Nat.min_le_left _ _
  have hmr : n ≤ r.records.length - r.pos := by rw [hn]; exact Nat.min_le_right _ _
  have hchoice : n = r.capacity ∨ n = r.records.length - r.pos := by
    rw [hn]; exact min_choice _ _
  have hdlen : delivered.length = n := by
    have hl := convertRecords_ok_length hconv
    rw [hl, List.length_take, List.length_drop]
    exact Nat.min_eq_left hmr
  have hbuf : r'.buffer = delivered ++ r.buffer.drop n := by rw [hstate]
  refine ⟨?_, ?_, ?_, ?_, ?_⟩
  · intro hlt
    rcases hchoice with hc | hc <;> omega
  · rw [hbuf, List.take_left' hdlen]
    exact hconv
  · rw [hbuf, List.drop_left' hdlen]
  · rw [hstate]
  · intro hend
    have hn0 : n = 0 := by omega
    subst hn0
    refine ⟨rfl, ?_⟩
    have hdel : delivered = [] := List.eq_nil_of_length_eq_zero hdlen
    rw [hstate, hdel]
    simp

/-- Witness for C1: `sampleReader.read` succeeds with 2 records and the
concluded properties hold at that concrete state. -/
theorem read_full_capacity_unless_end_witness :
    (2 < sampleReader.capacity → sampleReader.pos + 2 = sampleReader.records.length) ∧
    convertRecords sampleReader.kinds
        ((sampleReader.records.drop sampleReader.pos).take 2) =
      .ok (sampleReaderAfter.buffer.take 2) ∧
    sampleReaderAfter.buffer.drop 2 = sampleReader.buffer.drop 2 ∧
    sampleReaderAfter.pos = sampleReader.pos + 2 ∧
    (sampleReader.records.length ≤ sampleReader.pos → 2 = 0 ∧ sampleReaderAfter = sampleReader) :=
  read_full_capacity_unless_end sampleReader 2 sampleReaderAfter (by decide) rfl

/-- An open reader whose single bound buffer has element kind i8 while the
stream holds the value 300: delivering it is a bounds error, so the first
read makes this reader sick. -/
def sampleBadReader : ReaderState :=
  { sampleReader with kinds := [MemKind.i8], records := [[300]] }

/-- C3: if a conversion or bounds error `e` occurs during a read transfer,
the reader becomes sick with `e`: the read reports `e` and records it in
the sickness field, and from that point on every operation other than
close — read with any state, seek with any argument — fails (reporting the
original error and leaving the sick state in place), while close
succeeds. -/
theorem conversion_error_makes_reader_sick (r : ReaderState) (e : ErrorCode)
    (h1 : r.imf.isOpen = true) (h2 : r.isOpen = true) (hs : r.sick = none)
    (hc : convertRecords r.kinds
        ((r.records.drop r.pos).take (min r.capacity (r.records.length - r.pos))) =
      .error e) :
    r.read = (.error e, { r with sick := some e }) ∧
    ({ r with sick := some e } : ReaderState).read =
      (.error e, { r with sick := some e }) ∧
    (∀ rn : Int,
      ({ r with sick := some e } : ReaderState).seek rn =
        (.error e, { r with sick := some e })) ∧
    ({ r with sick := some e } : ReaderState).close =
      (.ok (),
        { r with
          sick := some e
          isOpen := false
          imf := { r.imf with readerCount := r.imf.readerCount - 1 } }) := by
  refine ⟨?_, ?_, ?_, ?_⟩
  · unfold ReaderState.read
    simp [h1, h2, hs, hc]
  · unfold ReaderState.read
    simp [h1, h2]
  · intro rn
    unfold ReaderState.seek
    simp [h1, h2]
  · unfold ReaderState.close
    simp [h2]

/-- Witness for C3: the concrete bad reader falls sick with
ValueNotRepresentable on its first read; the sick reader's read and seek
fail with that error and its close succeeds. -/
theorem conversion_error_makes_reader_sick_witness :
    sampleBadReader.read =
      (.error .valueNotRepresentable,
        { sampleBadReader with sick := some .valueNotRepresentable }) ∧
    ({ sampleBadReader with sick := some .valueNotRepresentable } : ReaderState).read =
      (.error .valueNotRepresentable,
        { sampleBadReader with sick := some .valueNotRepresentable }) ∧
    (∀ rn : Int,
      ({ sampleBadReader with sick := some .valueNotRepresentable } : ReaderState).seek rn =
        (.error .valueNotRepresentable,
          { sampleBadReader with sick := some .valueNotRepresentable })) ∧
    ({ sampleBadReader with sick := some .valueNotRepresentable } : ReaderState).close =
      (.ok (),
        { sampleBadReader with
          sick := some .valueNotRepresentable
          isOpen := false
          imf := { sampleBadReader.imf with readerCount := sampleBadReader.imf.readerCount - 1 } }) :=
  conversion_error_makes_reader_sick sampleBadReader .valueNotRepresentable rfl rfl rfl rfl

theorem convertRecords_ok_of_all (ks : List MemKind) (l : List Record)
    (h : ∀ rec ∈ l, convertRecord ks rec = .ok rec) :
    convertRecords ks l = .ok l := by
  induction l with
  | nil => rfl
  | cons a t ih =>
    have ha := h a (List.mem_cons_self a t)
    have ht := ih fun w hw => h w (List.mem_cons_of_mem a hw)
    simp [convertRecords, ha, ht]

/-- A healthy read whose conversions all succeed delivers exactly the next
`min capacity remaining` records. -/
theorem read_eq_of_healthy (r : ReaderState)
    (h1 : r.imf.isOpen = true) (h2 : r.isOpen = true) (hs : r.sick = none)
    (hconvok : convertRecords r.kinds
        ((r.records.drop r.pos).take (min r.capacity (r.records.length - r.pos))) =
      .ok ((r.records.drop r.pos).take (min r.capacity (r.records.length - r.pos)))) :
    r.read =
      (.ok (min r.capacity (r.records.length - r.pos)),
        { r with
          pos := r.pos + min r.capacity (r.records.length - r.pos)
          buffer :=
            (r.records.drop r.pos).take (min r.capacity (r.records.length - r.pos)) ++
              r.buffer.drop (min r.capacity (r.records.length - r.pos)) }) := by
  unfold ReaderState.read
  simp [h1, h2, hs, hconvok]

/-- Modelled from the spec: the full stream of records delivered by calling
`read()` repeatedly, `fuel` bounding the number of calls; each call
contributes the filled buffer prefix [0, n) (spec.md section 4.5). -/
def ReaderState.drain : Nat → ReaderState → List Record
  | 0, _ => []
  | fuel + 1, r =>
    match r.read with
    | (.ok n, r') => r'.buffer.take n ++ ReaderState.drain fuel r'
    | (.error _, _) => []

/-- With enough fuel, a healthy reader whose conversions are lossless
drains exactly the suffix of the record stream from its position on. -/
theorem drain_delivers_suffix : ∀ (fuel : Nat) (r : ReaderState),
    r.imf.isOpen = true → r.isOpen = true → r.sick = none →
    0 < r.capacity →
    r.pos ≤ r.records.length →
    (∀ rec ∈ r.records, convertRecord r.kinds rec = .ok rec) →
    r.records.length - r.pos ≤ fuel →
    ReaderState.drain fuel r = r.records.drop r.pos := by
  intro fuel
  induction fuel with
  | zero =>
    intro r h1 h2 hs hcap hpos hconv hfuel
    have hnil : r.records.drop r.pos = [] := List.drop_eq_nil_of_le (by omega)
    simp [ReaderState.drain, hnil]
  | succ fuel ih =>
    intro r h1 h2 hs hcap hpos hconv hfuel
    have hchunkmem : ∀ rec ∈ (r.records.drop r.pos).take
        (min r.capacity (r.records.length - r.pos)), convertRecord r.kinds rec = .ok rec :=
      fun rec hrec => hconv rec (List.mem_of_mem_drop (List.mem_of_mem_take hrec))
    have hconvok := convertRecords_ok_of_all r.kinds _ hchunkmem
    have hread := read_eq_of_healthy r h1 h2 hs hconvok
    have hmr : min r.capacity (r.records.length - r.pos) ≤ r.records.length - r.pos :=
      Nat.min_le_right _ _
    have hchunklen : ((r.records.drop r.pos).take
        (min r.capacity (r.records.length - r.pos))).length =
        min r.capacity (r.records.length - r.pos) := by
      rw [List.length_take, List.length_drop]
      exact Nat.min_eq_left hmr
    rw [ReaderState.drain, hread]
    simp only [List.take_left' hchunklen]
    have hdrain := ih
      { r with
        pos := r.pos + min r.capacity (r.records.length - r.pos)
        buffer :=
          (r.records.drop r.pos).take (min r.capacity (r.records.length - r.pos)) ++
            r.buffer.drop (min r.capacity (r.records.length - r.pos)) }
      h1 h2 hs hcap (by simp; omega) hconv
      (by
        simp only []
        have hchoice := min_choice r.capacity (r.records.length - r.pos)
        rcases hchoice with hc | hc <;> simp [hc] <;> omega)
    rw [hdrain]
    rw [← List.drop_drop]
    exact List.take_append_drop _ _

/-- Characterization of a successful `seek`: the reader was open and
healthy, the record number was in [0, record_count], and the only change
is the read position. -/
theorem seek_ok_spec {r : ReaderState} {j : Int} {r1 : ReaderState}
    (h : r.seek j = (.ok (), r1)) :
    r.imf.isOpen = true ∧ r.isOpen = true ∧ r.sick = none ∧
    0 ≤ j ∧ j ≤ (r.records.length : Int) ∧ r1 = { r with pos := j.toNat } := by
  unfold ReaderState.seek at h
  by_cases h1 : r.imf.isOpen = true
  swap
  · simp [h1] at h
  by_cases h2 : r.isOpen = true
  swap
  · simp [h1, h2] at h
  cases hs : r.sick with
  | some e => rw [hs] at h; simp [h1, h2] at h
  | none =>
    rw [hs] at h
    by_cases hj : j < 0 ∨ (r.records.length : Int) < j
    · simp [h1, h2, hj] at h
    · simp only [h1, h2, hj, Bool.not_eq_true, Bool.true_eq_false, if_false, ite_false,
        not_true_eq_false, if_neg, Prod.mk.injEq] at h
      push_neg at hj
      refine ⟨h1, h2, rfl, hj.1, hj.2, ?_⟩
      rw [h2]
      exact h.2.symm

/-- C5: the records delivered by `seek(j)` followed by reading equal the
records obtained by reading from the start of the CompressedVectorNode and
discarding the first `j`: after a successful seek to `j` the reader drains
exactly the stream that a reader positioned at the start drains with its
first `j` records discarded, and in particular the first `k` records
delivered after the seek are the first `k` of that suffix.  Conversions
are assumed lossless (wide enough buffer kinds) and `fuel` bounds the
number of read calls needed to exhaust the stream. -/
theorem seek_then_read_equals_drop (r : ReaderState) (j : Int) (r1 : ReaderState) (k fuel : Nat)
    (hcap : 0 < r.capacity)
    (hconv : ∀ rec ∈ r.records, convertRecord r.kinds rec = .ok rec)
    (hfuel : r.records.length ≤ fuel)
    (hseek : r.seek j = (.ok (), r1)) :
    ReaderState.drain fuel r1 =
      (ReaderState.drain fuel { r with pos := 0 }).drop j.toNat ∧
    (ReaderState.drain fuel r1).take k =
      ((ReaderState.drain fuel { r with pos := 0 }).drop j.toNat).take k := by
  obtain ⟨h1, h2, hs, hj0, hjlen, hr1⟩ := seek_ok_spec hseek
  have hjnat : j.toNat ≤ r.records.length := by omega
  have hd1 : ReaderState.drain fuel r1 = r.records.drop j.toNat := by
    rw [hr1]
    exact drain_delivers_suffix fuel _ h1 h2 hs hcap hjnat hconv (by simp; omega)
  have hd0 : ReaderState.drain fuel { r with pos := 0 } = r.records := by
    have := drain_delivers_suffix fuel { r with pos := 0 } h1 h2 hs hcap
      (by simp) hconv (by simp; omega)
    simpa using this
  constructor
  · rw [hd1, hd0]
  · rw [hd1, hd0]

/-- Witness for C5: seeking the concrete sample reader to record 1 and
draining delivers the record stream with its first record discarded. -/
theorem seek_then_read_equals_drop_witness :
    ReaderState.drain 4 { sampleReader with pos := (1 : Int).toNat } =
      (ReaderState.drain 4 { sampleReader with pos := 0 }).drop (1 : Int).toNat ∧
    (ReaderState.drain 4 { sampleReader with pos := (1 : Int).toNat }).take 2 =
      ((ReaderState.drain 4 { sampleReader with pos := 0 }).drop (1 : Int).toNat).take 2 :=
  seek_then_read_equals_drop sampleReader 1 { sampleReader with pos := (1 : Int).toNat } 2 4
    (by decide) (by decide) (by decide) rfl

/-- C6: on an open, healthy reader over an open ImageFile, `seek(j)`
succeeds exactly when 0 ≤ j ≤ record_count; seeking one past the last
record succeeds and the following read returns 0; and an out-of-range
record number fails with BadAPIArgument leaving the reader state
unchanged. -/
theorem seek_succeeds_iff_in_range (r : ReaderState) (j : Int)
    (h1 : r.imf.isOpen = true) (h2 : r.isOpen = true) (hs : r.sick = none) :
    ((r.seek j).1 = .ok () ↔ 0 ≤ j ∧ j ≤ (r.records.length : Int)) ∧
    r.seek (r.records.length : Int) = (.ok (), { r with pos := r.records.length }) ∧
    ({ r with pos := r.records.length } : ReaderState).read =
      (.ok 0, { r with pos := r.records.length }) ∧
    ((r.records.length : Int) < j → r.seek j = (.error .badAPIArgument, r)) ∧
    (j < 0 → r.seek j = (.error .badAPIArgument, r)) := by
  refine ⟨?_, ?_, ?_, ?_, ?_⟩
  · unfold ReaderState.seek
    simp only [h1, h2, hs, Bool.not_eq_true, Bool.true_eq_false, if_false, ite_false,
      not_true_eq_false]
    split
    · rename_i hcond
      constructor
      · intro hcontra
        simp at hcontra
      · intro hrange
        omega
    · rename_i hcond
      push_neg at hcond
      simp only [true_iff]
      omega
  · unfold ReaderState.seek
    simp [h1, h2, hs]
  · unfold ReaderState.read
    simp [h1, h2, hs, convertRecords]
  · intro hgt
    unfold ReaderState.seek
    have : j < 0 ∨ (r.records.length : Int) < j := Or.inr hgt
    simp [h1, h2, hs, this]
  · intro hlt
    unfold ReaderState.seek
    have : j < 0 ∨ (r.records.length : Int) < j := Or.inl hlt
    simp [h1, h2, hs, this]

/-- Witness for C6: on the concrete sample reader, seeking to 5 (past the
3 records) fails with BadAPIArgument without touching the state, while
seeking to the record count succeeds and the next read returns 0. -/
theorem seek_succeeds_iff_in_range_witness :
    ((sampleReader.seek 5).1 = .ok () ↔
      0 ≤ (5 : Int) ∧ (5 : Int) ≤ (sampleReader.records.length : Int)) ∧
    sampleReader.seek (sampleReader.records.length : Int) =
      (.ok (), { sampleReader with pos := sampleReader.records.length }) ∧
    ({ sampleReader with pos := sampleReader.records.length } : ReaderState).read =
      (.ok 0, { sampleReader with pos := sampleReader.records.length }) ∧
    ((sampleReader.records.length : Int) < 5 →
      sampleReader.seek 5 = (.error .badAPIArgument, sampleReader)) ∧
    ((5 : Int) < 0 → sampleReader.seek 5 = (.error .badAPIArgument, sampleReader)) :=
  seek_succeeds_iff_in_range sampleReader 5 rfl rfl rfl

/-- C7: `close` on an open reader succeeds, transitions to the closed
state, and decrements the container's reader count; a second close on the
already-closed reader succeeds and changes nothing; after close,
`isOpen()` is false and any further read fails with ReaderNotOpen. -/
theorem close_idempotent_spec (r : ReaderState)
    (h2 : r.isOpen = true) (hrc : 1 ≤ r.imf.readerCount) :
    ∃ rc : ReaderState,
      r.close = (.ok (), rc) ∧
      rc.isOpen = false ∧
      rc.imf.readerCount + 1 = r.imf.readerCount ∧
      rc.close = (.ok (), rc) ∧
      (r.imf.isOpen = true → rc.read = (.error .readerNotOpen, rc)) := by
  refine ⟨{ r with
      isOpen := false
      imf := { r.imf with readerCount := r.imf.readerCount - 1 } }, ?_, rfl, ?_, ?_, ?_⟩
  · unfold ReaderState.close
    simp [h2]
  · simp
    omega
  · unfold ReaderState.close
    simp
  · intro himf
    unfold ReaderState.read
    simp [himf]

/-- Witness for C7: closing the concrete open sample reader once and then
again behaves as concluded. -/
theorem close_idempotent_spec_witness :
    ∃ rc : ReaderState,
      sampleReader.close = (.ok (), rc) ∧
      rc.isOpen = false ∧
      rc.imf.readerCount + 1 = sampleReader.imf.readerCount ∧
      rc.close = (.ok (), rc) ∧
      (sampleReader.imf.isOpen = true → rc.read = (.error .readerNotOpen, rc)) :=
  close_idempotent_spec sampleReader rfl (by decide)

/-- C8: `CompressedVectorReader::checkInvariant` returns without raising
when the destination ImageFile is closed; when the reader and the
container are both open it raises InvarianceViolation exactly when the
associated CompressedVectorNode is not attached, the container's reader
count is below 1, or its writer count is nonzero.  The embedding of the
checker is a pure function on `ReaderState`, so it modifies no visible
state. -/
theorem reader_checkInvariant_spec (r : ReaderState) :
    (r.imf.isOpen = false → r.checkInvariant = none) ∧
    (r.isOpen = true → r.imf.isOpen = true →
      ((r.checkInvariant = some .invarianceViolation ↔
        (r.attached = false ∨ r.imf.readerCount < 1 ∨ r.imf.writerCount ≠ 0)) ∧
       (r.checkInvariant = none ↔
        (r.attached = true ∧ 1 ≤ r.imf.readerCount ∧ r.imf.writerCount = 0)))) := by
  constructor
  · intro hclosed
    unfold ReaderState.checkInvariant
    by_cases h2 : r.isOpen = true <;> simp [h2, hclosed]
  · intro h2 h1
    unfold ReaderState.checkInvariant
    by_cases ha : r.attached = true <;>
      by_cases hrc : r.imf.readerCount < 1 <;>
        by_cases hwc : r.imf.writerCount = 0 <;>
          (first
            | (simp [h1, h2, ha, hrc, hwc]; done)
            | (simp [h1, h2, ha, hrc, hwc]; omega))

/-- Witness for C8: the checker at concrete states — a reader on a closed
container yields no violation; an open reader on an open container with no
writers and one reader passes, and with a co-existing writer fails. -/
theorem reader_checkInvariant_spec_witness :
    ({ sampleReader with imf := { sampleReader.imf with isOpen := false } } :
        ReaderState).checkInvariant = none ∧
    ((sampleReader.checkInvariant = some .invarianceViolation ↔
      (sampleReader.attached = false ∨ sampleReader.imf.readerCount < 1 ∨
        sampleReader.imf.writerCount ≠ 0)) ∧
     (sampleReader.checkInvariant = none ↔
      (sampleReader.attached = true ∧ 1 ≤ sampleReader.imf.readerCount ∧
        sampleReader.imf.writerCount = 0))) :=
  ⟨(reader_checkInvariant_spec
      { sampleReader with imf := { sampleReader.imf with isOpen := false } }).1 rfl,
   (reader_checkInvariant_spec sampleReader).2 rfl rfl⟩

/-! ### IntegerNode theorems -/

/-- An open, writable container for node-creation witnesses. -/
def sampleWritableImf : ImageFile :=
  { isOpen := true, isWritable := true, readerCount := 0, writerCount := 0 }

/-- A concrete integer node used by the node witnesses. -/
def sampleIntegerNode : IntegerNodeImpl :=
  { value := 5, minimum := 0, maximum := 10
    destImageFile := sampleWritableImf, isAttached := false }

/-- C4: constructing an IntegerNode against an open writable ImageFile
accepts the triple (value, min, max) — every component an int64_t, hence
in [-2^63, 2^63) — exactly when min ≤ value ≤ max, failing eagerly with
ValueOutOfBounds otherwise; the constructed node satisfies
min ≤ value ≤ max and, the node being immutable after creation, the
invariant persists through every operation, with `checkInvariant` on an
open ImageFile reporting none on it; and in general `checkInvariant` of an
IntegerNode on an open ImageFile raises InvarianceViolation exactly when
min ≤ value ≤ max is violated. -/
theorem integerNode_create_spec (imf : ImageFile) (value minimum maximum : Int)
    (hopen : imf.isOpen = true) (hwrit : imf.isWritable = true)
    (_h64v : isInt64 value) (_h64lo : isInt64 minimum) (_h64hi : isInt64 maximum) :
    ((∃ ni, IntegerNode.create imf value minimum maximum = .ok ni) ↔
      (minimum ≤ value ∧ value ≤ maximum)) ∧
    (¬(minimum ≤ value ∧ value ≤ maximum) →
      IntegerNode.create imf value minimum maximum = .error .valueOutOfBounds) ∧
    (∀ ni, IntegerNode.create imf value minimum maximum = .ok ni →
      ni.minimum ≤ ni.value ∧ ni.value ≤ ni.maximum ∧
      ∀ du, ni.checkInvariant false du = none) ∧
    (∀ (nd : IntegerNodeImpl) (dr du : Bool), nd.destImageFile.isOpen = true →
      (nd.checkInvariant dr du = some .invarianceViolation ↔
        ¬(nd.minimum ≤ nd.value ∧ nd.value ≤ nd.maximum))) := by
  have hgen : ∀ (nd : IntegerNodeImpl) (dr du : Bool), nd.destImageFile.isOpen = true →
      (nd.checkInvariant dr du = some .invarianceViolation ↔
        ¬(nd.minimum ≤ nd.value ∧ nd.value ≤ nd.maximum)) := by
    intro nd dr du hnd
    unfold IntegerNodeImpl.checkInvariant Node.checkInvariant
    by_cases hb : nd.value < nd.minimum ∨ nd.maximum < nd.value <;>
      cases du <;> simp [hnd, hb] <;> omega
  refine ⟨?_, ?_, ?_, hgen⟩
  · by_cases hb : value < minimum ∨ maximum < value
    · simp [IntegerNode.create, IntegerNodeImpl.validateValue, hopen, hwrit, hb]
      omega
    · simp [IntegerNode.create, IntegerNodeImpl.validateValue, hopen, hwrit, hb]
      omega
  · intro hout
    have hb : value < minimum ∨ maximum < value := by omega
    simp [IntegerNode.create, IntegerNodeImpl.validateValue, hopen, hwrit, hb]
  · intro ni hok
    by_cases hb : value < minimum ∨ maximum < value
    · simp [IntegerNode.create, IntegerNodeImpl.validateValue, hopen, hwrit, hb] at hok
    · simp [IntegerNode.create, IntegerNodeImpl.validateValue, hopen, hwrit, hb] at hok
      refine ⟨?_, ?_, ?_⟩
      · rw [← hok]; dsimp only; omega
      · rw [← hok]; dsimp only; omega
      · intro du
        unfold IntegerNodeImpl.checkInvariant Node.checkInvariant
        cases du <;> simp [← hok, hopen, hb]

/-- Witness for C4: constructing (5, 0, 10) against an open writable
container succeeds, the created node passes its invariant check, and a
concrete out-of-bounds node on an open container fails the check. -/
theorem integerNode_create_spec_witness :
    ((∃ ni, IntegerNode.create sampleWritableImf 5 0 10 = .ok ni) ↔
      ((0 : Int) ≤ 5 ∧ (5 : Int) ≤ 10)) ∧
    (¬((0 : Int) ≤ 5 ∧ (5 : Int) ≤ 10) →
      IntegerNode.create sampleWritableImf 5 0 10 = .error .valueOutOfBounds) ∧
    (sampleIntegerNode.minimum ≤ sampleIntegerNode.value ∧
      sampleIntegerNode.value ≤ sampleIntegerNode.maximum ∧
      ∀ du, sampleIntegerNode.checkInvariant false du = none) ∧
    ({ sampleIntegerNode with value := 11 } : IntegerNodeImpl).checkInvariant true true =
      some .invarianceViolation := by
  have h := integerNode_create_spec sampleWritableImf 5 0 10 rfl rfl
    (by decide) (by decide) (by decide)
  refine ⟨h.1, h.2.1, h.2.2.1 sampleIntegerNode rfl, ?_⟩
  exact (h.2.2.2 { sampleIntegerNode with value := 11 } true true rfl).mpr (by decide)

/-- C9: downcasting a generic Node handle to IntegerNode succeeds exactly
when the handle's variant tag is TypeInteger, and otherwise fails with
BadNodeDowncast; the downcast constructor only reads the tag, so the
handle and the node tree are left unchanged. -/
theorem downcast_integer_iff_tag (n : Node) :
    ((∃ ni, IntegerNode.fromNode n = .ok ni) ↔ n.type = NodeType.typeInteger) ∧
    (n.type ≠ NodeType.typeInteger →
      IntegerNode.fromNode n = .error .badNodeDowncast) := by
  obtain ⟨impl⟩ := n
  cases impl <;> simp [IntegerNode.fromNode, Node.type]

/-- Witness for C9: downcasting a Node referencing an integer body
succeeds, and downcasting a Node referencing a float body fails with
BadNodeDowncast. -/
theorem downcast_integer_iff_tag_witness :
    (∃ ni, IntegerNode.fromNode (Node.mk (NodeImpl.integer sampleIntegerNode)) = .ok ni) ∧
    IntegerNode.fromNode (Node.mk NodeImpl.float) = .error .badNodeDowncast :=
  ⟨(downcast_integer_iff_tag (Node.mk (NodeImpl.integer sampleIntegerNode))).1.mpr rfl,
   (downcast_integer_iff_tag (Node.mk NodeImpl.float)).2 (by decide)⟩

/-- C10: upcasting an IntegerNode to a generic Node handle (a total
function, so it never fails) and downcasting back succeeds and yields a
handle referencing the same underlying node object: the round trip is the
identity on the referenced node. -/
theorem upcast_downcast_identity (ni : IntegerNodeImpl) :
    IntegerNode.fromNode (IntegerNode.toNode ni) = .ok ni := rfl

end E57
